import Mathlib

/-!
Shallow embedding of the FastCopy parallel copy engine
(`src/index.ts` and `src/worker.ts`) and verification of the
spec's claims about it.

Modelling conventions:

* A relative path is represented as its list of components
  (the result of `relativePath.split(path.sep)` in the source);
  `joinPath` re-joins components with the separator, as `path.join`
  does for the strings the engine builds from components.
* The source tree seen by `fs.promises.readdir` is a static value of
  type `FsForest` (the ordered listing of one directory, each
  subdirectory carrying a `readable` flag: `readdir` on an
  unreadable directory throws, modelled with `Except.error`
  carrying the directory's relative path).
* Worker-side per-file I/O (`fs.stat`, `fs.ensureDir`,
  `fs.copy` / `fs.copyFile`) is abstracted by a `FileIO` record per
  file, giving each call's result; the worker's control flow over
  these results is translated from `worker.ts` verbatim.
* JavaScript's `String.prototype.startsWith` is modelled on the
  character list of the string (`strStartsWith`), which agrees with
  it on the ASCII data involved.
-/

namespace FastCopy

/-- JavaScript `s.startsWith(pat)`, modelled on character lists. -/
def strStartsWith (s pat : String) : Bool :=
  pat.data.isPrefixOf s.data

/-- Join path components with the path separator (`path.sep = "/"`),
recovering the relative-path string the source manipulates. -/
def joinPath (parts : List String) : String :=
  String.intercalate "/" parts

/-- The `ignoredPaths` array of `src/index.ts` (lines 54-61). -/
def ignoredPaths : List String :=
  ["node_modules", ".pnpm-store", "$RECYCLE.BIN", "System Volume Information", ".next"]

/-- `shouldIgnore` of `src/index.ts` (lines 66-85).  The source receives an
absolute `filePath` and immediately reduces it to
`path.relative(sourceDir, filePath).split(path.sep)`; the embedding takes
those components (`parts`) directly. -/
def shouldIgnore (parts : List String) (isDirectory : Bool) : Bool :=
  if parts.contains "System Volume Information" then true
  else if parts.contains ".git" then true
  else if isDirectory then
    parts.any (fun part => ignoredPaths.contains part)
  else
    ignoredPaths.any (fun pattern => strStartsWith (joinPath parts) pattern)

/-- A static directory listing as `readdir` traversal sees it: the ordered
entries of one directory.  A subdirectory carries `readable = false` when
`fs.promises.readdir` on it would throw. -/
inductive FsForest where
  | nil : FsForest
  | file (name : String) (rest : FsForest) : FsForest
  | dir (name : String) (readable : Bool) (children : FsForest) (rest : FsForest) : FsForest
deriving DecidableEq, Repr

/-- `countFiles` of `src/index.ts` (lines 96-114), at the directory whose
path relative to `sourceDir` is `rel`.  `readdir` has no surrounding
try/catch in the source, so an unreadable (non-ignored) subdirectory
propagates as an exception, modelled by `Except.error` naming it. -/
def countFiles (rel : List String) : FsForest → Except String Nat
  | .nil => Except.ok 0
  | .file name rest =>
      match countFiles rel rest with
      | .error e => .error e
      | .ok r => .ok ((if shouldIgnore (rel ++ [name]) false then 0 else 1) + r)
  | .dir name readable children rest =>
      if shouldIgnore (rel ++ [name]) true then countFiles rel rest
      else if readable then
        match countFiles (rel ++ [name]) children with
        | .error e => .error e
        | .ok c =>
            match countFiles rel rest with
            | .error e => .error e
            | .ok r => .ok (c + r)
      else .error (joinPath (rel ++ [name]))

/-- `collectFiles` of `src/index.ts` (lines 121-138): pushes the relative
path of every non-ignored file, descending only into non-ignored
directories.  As in `countFiles`, a `readdir` failure propagates. -/
def collectFiles (base : List String) : FsForest → Except String (List (List String))
  | .nil => Except.ok []
  | .file name rest =>
      match collectFiles base rest with
      | .error e => .error e
      | .ok r =>
          .ok ((if shouldIgnore (base ++ [name]) false then [] else [base ++ [name]]) ++ r)
  | .dir name readable children rest =>
      if shouldIgnore (base ++ [name]) true then collectFiles base rest
      else if readable then
        match collectFiles (base ++ [name]) children with
        | .error e => .error e
        | .ok c =>
            match collectFiles base rest with
            | .error e => .error e
            | .ok r => .ok (c ++ r)
      else .error (joinPath (base ++ [name]))

/-- The source tree a run operates on: the root's listing plus whether the
root directory itself is readable. -/
structure SourceTree where
  rootReadable : Bool
  entries : FsForest
deriving DecidableEq, Repr

/-- `totalFiles = await countFiles(sourceDir)` in `main` (line 166). -/
def runCountFiles (t : SourceTree) : Except String Nat :=
  if t.rootReadable then countFiles [] t.entries else Except.error ""

/-- `await collectFiles(sourceDir, '', filesToCopy)` in `main` (line 171). -/
def runCollectFiles (t : SourceTree) : Except String (List (List String)) :=
  if t.rootReadable then collectFiles [] t.entries else Except.error ""

/-- `Math.ceil(n / w)` on natural numbers, for `w ≥ 1` (in `main`, `w` is
`os.cpus().length`, always positive). -/
def ceilDiv (n w : Nat) : Nat := (n + w - 1) / w

/-- The chunking of `main` (lines 175-178):
`chunks = Array.from({length: numCPUs}, (_, i) => filesToCopy.slice(i*chunkSize, (i+1)*chunkSize))`
with `chunkSize = Math.ceil(filesToCopy.length / numCPUs)`.
`slice(a, b)` is `drop a` then `take (b - a)`. -/
def partitionChunks (files : List α) (numCPUs : Nat) : List (List α) :=
  let chunkSize := ceilDiv files.length numCPUs
  (List.range numCPUs).map (fun i => (files.drop (i * chunkSize)).take chunkSize)

/-- `LARGE_FILE_THRESHOLD = 10 * 1024 * 1024` in `src/worker.ts` (line 12). -/
def LARGE_FILE_THRESHOLD : Nat := 10 * 1024 * 1024

/-- `BATCH_SIZE = 100` in `src/worker.ts` (line 13). -/
def BATCH_SIZE : Nat := 100

/-- The two copy routines of `copyFile` in `src/worker.ts`:
`fs.copy` (streaming / whole-tree) versus `fs.copyFile` (direct). -/
inductive CopyStrategy where
  | streaming : CopyStrategy
  | direct : CopyStrategy
deriving DecidableEq, Repr

/-- The strategy choice of `copyFile` (`src/worker.ts` lines 31-35):
`if (stats.size > LARGE_FILE_THRESHOLD) fs.copy else fs.copyFile`. -/
def selectStrategy (size : Nat) : CopyStrategy :=
  if size > LARGE_FILE_THRESHOLD then .streaming else .direct

/-- The results of the file-system calls a worker makes for one file:
`fs.stat` (yielding the size, or an error), `fs.ensureDir` on the
destination's parent, and the two copy routines.  Abstracting these
results as data lets the worker's control flow be stated exactly. -/
structure FileIO where
  stat : Except String Nat
  mkdir : Except String Unit
  copyStreaming : Except String Unit
  copyDirect : Except String Unit
deriving Repr

/-- A per-file I/O environment in which every call succeeds
(size 0, so the direct strategy is taken). -/
def okIO : FileIO :=
  { stat := .ok 0, mkdir := .ok (), copyStreaming := .ok (), copyDirect := .ok () }

/-- The `try`-block body of `copyFile` (`src/worker.ts` lines 27-35):
stat, pick the strategy by size, run it. -/
def copyFileBody (io : FileIO) : Except String Unit :=
  match io.stat with
  | .error m => .error m
  | .ok size =>
      match selectStrategy size with
      | .streaming => io.copyStreaming
      | .direct => io.copyDirect

/-- `copyFile` of `src/worker.ts` (lines 26-39): its catch re-throws with
the message prefixed by `Failed to copy file: `. -/
def copyFileModel (io : FileIO) : Except String Unit :=
  match copyFileBody io with
  | .ok _ => .ok ()
  | .error m => .error ("Failed to copy file: " ++ m)

/-- Messages a worker posts to the parent (`parentPort.postMessage` in
`src/worker.ts`): per-file outcomes `copied`/`skipped`, the final `done`,
and the fatal-error message of the top-level catch. -/
inductive Msg where
  | copied (file : List String) : Msg
  | skipped (file : List String) (error : String) : Msg
  | done : Msg
  | error (e : String) : Msg
deriving DecidableEq, Repr

/-- One iteration of the loop in `copyBatch` (`src/worker.ts` lines 43-55):
`ensureDir` then `copyFile` inside one `try`; on success post `copied`,
on any failure post `skipped` with `Error copying ${file}: ${message}`
and continue. -/
def processFile (io : List String → FileIO) (file : List String) : Msg :=
  match (io file).mkdir with
  | .error m => .skipped file ("Error copying " ++ joinPath file ++ ": " ++ m)
  | .ok _ =>
      match copyFileModel (io file) with
      | .ok _ => .copied file
      | .error m => .skipped file ("Error copying " ++ joinPath file ++ ": " ++ m)

/-- `copyBatch` (`src/worker.ts` lines 42-56): processes each file of the
batch in order, posting exactly one message per file. -/
def copyBatch (io : List String → FileIO) (files : List (List String)) : List Msg :=
  files.map (processFile io)

/-- The batch loop of the worker's top-level async function
(`src/worker.ts` lines 61-64):
`for (i = 0; i < chunk.length; i += BATCH_SIZE) copyBatch(chunk.slice(i, i + BATCH_SIZE))`
runs `ceil(chunk.length / BATCH_SIZE)` iterations, the i-th over
`chunk.slice(i*BATCH_SIZE, (i+1)*BATCH_SIZE)`. -/
def toBatches (chunk : List α) : List (List α) :=
  (List.range (ceilDiv chunk.length BATCH_SIZE)).map
    (fun b => (chunk.drop (b * BATCH_SIZE)).take BATCH_SIZE)

/-- All messages a worker that completes its chunk posts, in order:
the concatenated batch outcomes followed by `done`
(`src/worker.ts` lines 58-67). -/
def workerRun (io : List String → FileIO) (chunk : List (List String)) : List Msg :=
  ((toBatches chunk).map (copyBatch io)).flatten ++ [Msg.done]

/-- A worker together with a fatal-failure injection: `none` means the
worker completes its chunk and exits with code 0; `some k` means an
unrecoverable condition strikes after `k` files were processed — the
top-level catch posts an `error` message and the worker exits with
code 1 (`src/worker.ts` lines 68-72), leaving the rest of the chunk
unprocessed.  Returns the posted messages and the exit code. -/
def workerRunFatal (io : List String → FileIO) (chunk : List (List String)) :
    Option Nat → List Msg × Nat
  | none => (workerRun io chunk, 0)
  | some k => ((chunk.take k).map (processFile io) ++ [Msg.error "worker fatal"], 1)

/-- The running counters `copiedFiles` / `skippedFiles` of `src/index.ts`. -/
structure Counts where
  copied : Nat
  skipped : Nat
deriving DecidableEq, Repr

/-- The message handler of `main` (`src/index.ts` lines 185-195):
`copied` increments `copiedFiles`, `skipped` increments `skippedFiles`,
anything else (the `done` and `error` statuses) changes no counter. -/
def applyMsg (c : Counts) : Msg → Counts
  | .copied _ => { c with copied := c.copied + 1 }
  | .skipped _ _ => { c with skipped := c.skipped + 1 }
  | .done => c
  | .error _ => c

/-- Folding the message handler over a stream of worker messages. -/
def aggregate (init : Counts) (msgs : List Msg) : Counts :=
  msgs.foldl applyMsg init

/-- The join barrier of `main` (`src/index.ts` lines 208-213):
`Promise.all` over promises that resolve on exit code 0 and reject with
`Worker stopped with exit code ${code}` otherwise — it fails whenever
some worker's exit code is non-zero. -/
def awaitWorkers (codes : List Nat) : Except String Unit :=
  match codes.find? (fun c => c != 0) with
  | some c => .error ("Worker stopped with exit code " ++ toString c)
  | none => .ok ()

/-- The final report of `main` (`src/index.ts` lines 221-223). -/
structure RunSummary where
  totalFiles : Nat
  copiedFiles : Nat
  skippedFiles : Nat
deriving DecidableEq, Repr

/-- `main` of `src/index.ts` (lines 160-224) end to end: count, collect,
chunk, run every worker (with optional fatal-failure injection per worker
index), fold all posted messages through the message handler, pass the
join barrier, and report.  Any propagated exception — enumeration failure
or a rejected worker promise — makes `main` reject, in which case
`main().catch` (lines 231-234) prints only an error and exits: the
returned `Except.error` means no summary is produced. -/
def mainRun (t : SourceTree) (io : List String → FileIO) (numCPUs : Nat)
    (fatal : Nat → Option Nat) : Except String RunSummary :=
  match runCountFiles t with
  | .error e => .error e
  | .ok total =>
      match runCollectFiles t with
      | .error e => .error e
      | .ok files =>
          let chunks := partitionChunks files numCPUs
          let results := chunks.enum.map (fun p => workerRunFatal io p.2 (fatal p.1))
          let final := aggregate ⟨0, 0⟩ ((results.map Prod.fst).flatten)
          match awaitWorkers (results.map Prod.snd) with
          | .error e => .error e
          | .ok _ => .ok ⟨total, final.copied, final.skipped⟩

/-- A message is a per-file outcome (`copied` or `skipped`), as opposed to
the `done` / fatal-`error` control messages. -/
def isOutcome : Msg → Bool
  | .copied _ => true
  | .skipped _ _ => true
  | .done => false
  | .error _ => false

/-! ### Helper lemmas: chunking arithmetic -/

/-- Concatenating `k` successive `slice(i*cs, (i+1)*cs)` windows yields the
first `k*cs` elements of the list. -/
theorem slice_flatten (l : List α) (cs : Nat) :
    ∀ k, ((List.range k).map (fun i => (l.drop (i * cs)).take cs)).flatten = l.take (k * cs)
  | 0 => by simp
  | k + 1 => by
      rw [List.range_succ, List.map_append, List.flatten_append, slice_flatten l cs k]
      simp [List.take_add, Nat.succ_mul]

/-- `w * ceil(n / w) ≥ n` for positive `w`: the chunk windows cover the list. -/
theorem le_mul_ceilDiv (n w : Nat) (hw : 0 < w) : n ≤ w * ceilDiv n w := by
  have h := Nat.div_add_mod (n + w - 1) w
  have hm : (n + w - 1) % w < w := Nat.mod_lt _ hw
  unfold ceilDiv
  omega

/-- The chunks of `main` concatenate back to the input file list. -/
theorem partitionChunks_flatten (files : List α) (w : Nat) (hw : 0 < w) :
    (partitionChunks files w).flatten = files := by
  unfold partitionChunks
  rw [slice_flatten]
  exact List.take_of_length_le (le_mul_ceilDiv _ _ hw)

/-- The worker's batch windows concatenate back to its chunk. -/
theorem toBatches_flatten (chunk : List α) : (toBatches chunk).flatten = chunk := by
  unfold toBatches
  rw [slice_flatten]
  apply List.take_of_length_le
  rw [Nat.mul_comm]
  exact le_mul_ceilDiv _ _ (by decide)

/-- Chunking an empty file list yields `numCPUs` empty chunks. -/
theorem partitionChunks_nil (w : Nat) :
    partitionChunks ([] : List α) w = List.replicate w [] := by
  unfold partitionChunks
  rw [List.eq_replicate_iff]
  refine ⟨by simp, ?_⟩
  intro b hb
  rcases List.mem_map.mp hb with ⟨i, _, rfl⟩
  simp

/-! ### Helper lemmas: worker messages and the aggregator -/

/-- `copyBatch` posts a per-file outcome for every file: a `copied` or a
`skipped`, never a control message. -/
theorem isOutcome_processFile (io : List String → FileIO) (f : List String) :
    isOutcome (processFile io f) = true := by
  unfold processFile
  rcases (io f).mkdir with m | u
  · rfl
  · rcases copyFileModel (io f) with m | u <;> rfl

/-- A worker that completes its chunk posts exactly the per-file outcomes in
chunk order, then `done`: batching is invisible in the message stream. -/
theorem workerRun_eq (io : List String → FileIO) (chunk : List (List String)) :
    workerRun io chunk = chunk.map (processFile io) ++ [Msg.done] := by
  unfold workerRun copyBatch
  rw [← List.map_flatten, toBatches_flatten]

/-- The aggregator's two counters sum to the number of outcome messages
seen (each message increments at most one counter, outcome messages
exactly one). -/
theorem aggregate_spec (msgs : List Msg) : ∀ init : Counts,
    (aggregate init msgs).copied + (aggregate init msgs).skipped =
      init.copied + init.skipped + msgs.countP isOutcome := by
  induction msgs with
  | nil => intro init; rfl
  | cons m rest ih =>
      intro init
      have hstep : aggregate init (m :: rest) = aggregate (applyMsg init m) rest := rfl
      rw [hstep, ih, List.countP_cons]
      cases m <;> simp [applyMsg, isOutcome] <;> omega

/-- A full batch posts one outcome message per file. -/
theorem countP_map_processFile (io : List String → FileIO) (files : List (List String)) :
    (files.map (processFile io)).countP isOutcome = files.length := by
  induction files with
  | nil => rfl
  | cons f rest ih => simp [List.countP_cons, isOutcome_processFile, ih]

/-- A completing worker posts exactly `chunk.length` outcome messages. -/
theorem countP_workerRun (io : List String → FileIO) (chunk : List (List String)) :
    (workerRun io chunk).countP isOutcome = chunk.length := by
  rw [workerRun_eq, List.countP_append, countP_map_processFile]
  rfl

/-- Across all completing workers, outcome messages number exactly the
files of all chunks together. -/
theorem countP_flatten_workers (io : List String → FileIO)
    (chunks : List (List (List String))) :
    ((chunks.map (workerRun io)).flatten).countP isOutcome = chunks.flatten.length := by
  induction chunks with
  | nil => rfl
  | cons c rest ih =>
      simp [List.countP_append, countP_workerRun, ih]

/-! ### Helper lemmas: the two enumeration passes -/

/-- The counting pass and the collection pass are the same traversal:
`countFiles` returns exactly the length of what `collectFiles` gathers
(and fails on exactly the same first unreadable directory). -/
theorem countFiles_eq_length (fo : FsForest) : ∀ rel : List String,
    countFiles rel fo = Except.map List.length (collectFiles rel fo) := by
  induction fo with
  | nil => intro rel; rfl
  | file name rest ih =>
      intro rel
      rw [countFiles, collectFiles, ih rel]
      cases h : collectFiles rel rest with
      | error e => rfl
      | ok r =>
          by_cases hig : shouldIgnore (rel ++ [name]) false <;>
            simp [hig, Except.map, Nat.add_comm]
  | dir name readable children rest ihc ihr =>
      intro rel
      rw [countFiles, collectFiles]
      by_cases hig : shouldIgnore (rel ++ [name]) true
      · simp only [hig, if_true]
        exact ihr rel
      · simp only [hig, if_false]
        cases readable with
        | false => rfl
        | true =>
            simp only [if_true]
            rw [ihc, ihr]
            cases hc : collectFiles (rel ++ [name]) children with
            | error e => rfl
            | ok c =>
                cases hr : collectFiles rel rest with
                | error e => rfl
                | ok r => simp [Except.map]

/-! ### Helper lemmas: the ignore predicate -/

/-- Any path with a `.git` component is ignored, file or directory. -/
theorem shouldIgnore_of_git {parts : List String} (h : ".git" ∈ parts) (b : Bool) :
    shouldIgnore parts b = true := by
  have hc : parts.contains ".git" = true := List.elem_iff.mpr h
  unfold shouldIgnore
  rw [hc]
  cases h1 : parts.contains "System Volume Information" <;> simp

/-- Any path with a `System Volume Information` component is ignored,
file or directory. -/
theorem shouldIgnore_of_svi {parts : List String}
    (h : "System Volume Information" ∈ parts) (b : Bool) :
    shouldIgnore parts b = true := by
  have hc : parts.contains "System Volume Information" = true := List.elem_iff.mpr h
  unfold shouldIgnore
  rw [hc]
  simp

/-- A directory path with any component in `ignoredPaths` is ignored. -/
theorem shouldIgnore_dir_of_mem {parts : List String} {c : String}
    (hc : c ∈ parts) (hmem : c ∈ ignoredPaths) :
    shouldIgnore parts true = true := by
  have hany : parts.any (fun part => ignoredPaths.contains part) = true :=
    List.any_eq_true.mpr ⟨c, hc, List.elem_iff.mpr hmem⟩
  unfold shouldIgnore
  rw [hany]
  cases h1 : parts.contains "System Volume Information" <;>
    cases h2 : parts.contains ".git" <;> simp

/-- A non-ignored path has no `.git` and no `System Volume Information`
component. -/
theorem no_special_of_not_ignored {parts : List String} {b : Bool}
    (h : shouldIgnore parts b = false) :
    ∀ c ∈ parts, c ≠ ".git" ∧ c ≠ "System Volume Information" := by
  intro c hcp
  constructor
  · rintro rfl
    rw [shouldIgnore_of_git hcp b] at h
    cases h
  · rintro rfl
    rw [shouldIgnore_of_svi hcp b] at h
    cases h

/-- A non-ignored directory path has no component in `ignoredPaths`. -/
theorem no_ignored_component_of_not_ignored_dir {parts : List String}
    (h : shouldIgnore parts true = false) :
    ∀ c ∈ parts, c ∉ ignoredPaths := by
  intro c hcp hmem
  rw [shouldIgnore_dir_of_mem hcp hmem] at h
  cases h

/-! ### Helper lemmas: soundness of the collection pass -/

/-- Every path the collection pass gathers below `base` extends `base`, is
itself not ignored as a file, and every intermediate directory on the way
down was vetted by `shouldIgnore` (that is how the traversal reached it). -/
theorem collectFiles_sound (fo : FsForest) : ∀ (base : List String)
    (l : List (List String)) (p : List String),
    collectFiles base fo = Except.ok l → p ∈ l →
    ∃ suf, p = base ++ suf ∧ suf ≠ [] ∧ shouldIgnore p false = false ∧
      ∀ j, 0 < j → j < suf.length → shouldIgnore (base ++ suf.take j) true = false := by
  induction fo with
  | nil =>
      intro base l p h hp
      rw [collectFiles] at h
      cases h
      cases hp
  | file name rest ih =>
      intro base l p h hp
      rw [collectFiles] at h
      cases hr : collectFiles base rest with
      | error e => rw [hr] at h; cases h
      | ok r =>
          rw [hr] at h
          cases h
          rcases List.mem_append.mp hp with hleft | hright
          · by_cases hig : shouldIgnore (base ++ [name]) false = true
            · rw [if_pos hig] at hleft
              cases hleft
            · rw [if_neg hig] at hleft
              have hp' : p = base ++ [name] := List.mem_singleton.mp hleft
              subst hp'
              have hig' : shouldIgnore (base ++ [name]) false = false := by
                simpa using hig
              refine ⟨[name], rfl, by simp, hig', ?_⟩
              intro j hj0 hj1
              simp at hj1
              omega
          · exact ih base r p hr hright
  | dir name readable children rest ihc ihr =>
      intro base l p h hp
      rw [collectFiles] at h
      by_cases hig : shouldIgnore (base ++ [name]) true
      · rw [if_pos hig] at h
        exact ihr base l p h hp
      · rw [if_neg hig] at h
        cases readable with
        | false => cases h
        | true =>
            simp only [if_true] at h
            cases hc : collectFiles (base ++ [name]) children with
            | error e => rw [hc] at h; cases h
            | ok c =>
                rw [hc] at h
                cases hr : collectFiles base rest with
                | error e => rw [hr] at h; cases h
                | ok r =>
                    rw [hr] at h
                    cases h
                    rcases List.mem_append.mp hp with hleft | hright
                    · rcases ihc (base ++ [name]) c p hc hleft with
                        ⟨suf', hval, _, hfile, hdirs⟩
                      refine ⟨name :: suf', by simpa [List.append_assoc] using hval,
                        by simp, hfile, ?_⟩
                      intro j hj0 hj1
                      cases j with
                      | zero => omega
                      | succ j' =>
                          cases j' with
                          | zero =>
                              have hig' : shouldIgnore (base ++ [name]) true = false := by
                                simpa using hig
                              simpa using hig'
                          | succ j'' =>
                              have := hdirs (j'' + 1) (by omega)
                                (by simp at hj1; omega)
                              simpa [List.append_assoc] using this
                    · exact ihr base r p hr hright

/-! ### Helper lemmas: the run coordinator -/

/-- `partition` always produces exactly `numCPUs` chunks (one worker is
spawned per chunk, empty or not). -/
theorem partitionChunks_length (files : List α) (w : Nat) :
    (partitionChunks files w).length = w := by
  unfold partitionChunks
  simp

/-- Mapping a function of the entry only over an index-entry enumeration
forgets the indices. -/
theorem enumFrom_map_snd_fun (g : α → β) : ∀ (n : Nat) (l : List α),
    (l.enumFrom n).map (fun p => g p.2) = l.map g
  | _, [] => rfl
  | n, a :: l => by
      show (g a) :: (l.enumFrom (n + 1)).map (fun p => g p.2) = g a :: l.map g
      rw [enumFrom_map_snd_fun g (n + 1) l]

/-- Without fatal injections, every spawned worker completes its chunk and
exits with code 0. -/
theorem workers_no_fatal (io : List String → FileIO) (chunks : List (List (List String))) :
    chunks.enum.map (fun p => workerRunFatal io p.2 none) =
      chunks.map (fun c => (workerRun io c, 0)) :=
  enumFrom_map_snd_fun (fun c => (workerRun io c, 0)) 0 chunks

/-- The join barrier rejects whenever some worker's exit code is non-zero. -/
theorem awaitWorkers_ne_ok {codes : List Nat} {x : Nat} (hx : x ∈ codes) (hnz : x ≠ 0)
    (u : Unit) : awaitWorkers codes ≠ Except.ok u := by
  unfold awaitWorkers
  cases hf : codes.find? (fun c => c != 0) with
  | some c => simp
  | none =>
      have h0 := List.find?_eq_none.mp hf x hx
      simp at h0
      exact absurd h0 hnz

/-- The join barrier passes when every worker exited with code 0. -/
theorem awaitWorkers_all_zero {codes : List Nat} (h : ∀ x ∈ codes, x = 0) :
    awaitWorkers codes = Except.ok () := by
  unfold awaitWorkers
  rw [List.find?_eq_none.mpr]
  intro x hx
  simp [h x hx]

/-- A failed enumeration (counting pass) makes `main` reject: `mainRun`
propagates the error and no summary is produced. -/
theorem mainRun_count_error (t : SourceTree) (io : List String → FileIO) (w : Nat)
    (fatal : Nat → Option Nat) (e : String) (h : runCountFiles t = Except.error e) :
    mainRun t io w fatal = Except.error e := by
  unfold mainRun
  rw [h]

/-- When both passes succeed and no worker fatally errors, `main` resolves
the join barrier and reports the aggregator's final counters. -/
theorem mainRun_no_fatal (t : SourceTree) (io : List String → FileIO) (w : Nat)
    (total : Nat) (files : List (List String))
    (hc : runCountFiles t = Except.ok total) (hl : runCollectFiles t = Except.ok files) :
    mainRun t io w (fun _ => none) =
      Except.ok ⟨total,
        (aggregate ⟨0, 0⟩ (((partitionChunks files w).map (workerRun io)).flatten)).copied,
        (aggregate ⟨0, 0⟩ (((partitionChunks files w).map (workerRun io)).flatten)).skipped⟩ := by
  unfold mainRun
  simp only [hc, hl]
  rw [workers_no_fatal io (partitionChunks files w)]
  rw [List.map_map, List.map_map]
  have hawait : awaitWorkers ((partitionChunks files w).map
      (Prod.snd ∘ fun c => (workerRun io c, 0))) = Except.ok () := by
    apply awaitWorkers_all_zero
    intro x hx
    rcases List.mem_map.mp hx with ⟨c, _, rfl⟩
    rfl
  rw [hawait]
  rfl

/-- The root-level wrappers of the two passes agree in the same way the
passes themselves do. -/
theorem runCountFiles_eq (t : SourceTree) :
    runCountFiles t = Except.map List.length (runCollectFiles t) := by
  unfold runCountFiles runCollectFiles
  by_cases hr : t.rootReadable
  · simp only [hr, if_true]
    exact countFiles_eq_length t.entries []
  · simp [hr, Except.map]

/-! ### The claims -/

/-- C1: for every static source tree, after a run in which no worker
fatally errors, `copiedCount + skippedCount = totalFiles` in the final
summary: each worker posts exactly one outcome event per file of its
chunk, and the aggregator increments exactly one counter per event. -/
theorem claim1_run_completeness (t : SourceTree) (io : List String → FileIO)
    (w : Nat) (hw : 0 < w) (s : RunSummary)
    (h : mainRun t io w (fun _ => none) = Except.ok s) :
    s.copiedFiles + s.skippedFiles = s.totalFiles := by
  cases hc : runCountFiles t with
  | error e =>
      rw [mainRun_count_error t io w _ e hc] at h
      cases h
  | ok total =>
      cases hl : runCollectFiles t with
      | error e =>
          unfold mainRun at h
          simp only [hc, hl] at h
          cases h
      | ok files =>
          rw [mainRun_no_fatal t io w total files hc hl] at h
          have htot : total = files.length := by
            rw [runCountFiles_eq, hl] at hc
            exact (Except.ok.inj hc).symm
          injection h with h
          subst h
          have h1 := aggregate_spec
            (((partitionChunks files w).map (workerRun io)).flatten) ⟨0, 0⟩
          have h2 := countP_flatten_workers io (partitionChunks files w)
          have h3 := partitionChunks_flatten files w hw
          rw [h3] at h2
          rw [h2] at h1
          simpa [htot] using h1

/-- C1 witness. -/
theorem claim1_witness :
    (0 : Nat) < 2 ∧
    mainRun ⟨true, FsForest.file "a.txt" FsForest.nil⟩ (fun _ => okIO) 2 (fun _ => none) =
      Except.ok ⟨1, 1, 0⟩ ∧
    (1 : Nat) + 0 = 1 :=
  ⟨by decide, rfl,
    claim1_run_completeness ⟨true, FsForest.file "a.txt" FsForest.nil⟩ (fun _ => okIO) 2
      (by decide) ⟨1, 1, 0⟩ rfl⟩

/-- C2: for every file list and positive `workerCount`, the chunks are
contiguous index-based slices of length at most
`ceil(len(fileEntries) / workerCount)`, and their concatenation is exactly
the input list — nothing dropped, nothing duplicated. -/
theorem claim2_partition_exact {α : Type} (files : List α) (w : Nat) (hw : 0 < w) :
    (partitionChunks files w).flatten = files ∧
    (partitionChunks files w).length = w ∧
    ∀ c ∈ partitionChunks files w, c.length ≤ ceilDiv files.length w := by
  refine ⟨partitionChunks_flatten files w hw, partitionChunks_length files w, ?_⟩
  intro c hc
  have hc' : ∃ i, i < w ∧
      (files.drop (i * ceilDiv files.length w)).take (ceilDiv files.length w) = c := by
    simpa [partitionChunks] using hc
  rcases hc' with ⟨i, _, rfl⟩
  exact List.length_take_le _ _

/-- C2 witness. -/
theorem claim2_witness :
    (0 : Nat) < 2 ∧ (partitionChunks [["a"], ["b"], ["c"]] 2).flatten = [["a"], ["b"], ["c"]] :=
  ⟨by decide, (claim2_partition_exact [["a"], ["b"], ["c"]] 2 (by decide)).1⟩

/-- C3 counterexample: on an empty file list with 4 CPUs the partitioner
produces 4 (empty) chunks, not zero — and `main` spawns one worker per
chunk, so 4 workers are spawned, not zero. -/
theorem claim3_counterexample :
    (partitionChunks ([] : List (List String)) 4).length = 4 ∧
    ¬ (partitionChunks ([] : List (List String)) 4).length = 0 :=
  ⟨rfl, by decide⟩

/-- C3 (amended): if the enumerated file list is empty, the partitioner
produces `workerCount` empty chunks and one worker is spawned per chunk
(so `workerCount` workers, each of which finds its chunk empty and posts
only `done`); the run completes with totalFiles = copied = skipped = 0. -/
theorem claim3_empty_worklist (w : Nat) (io : List String → FileIO) (hw : 0 < w) :
    partitionChunks ([] : List (List String)) w = List.replicate w [] ∧
    (partitionChunks ([] : List (List String)) w).length = w ∧
    mainRun ⟨true, FsForest.nil⟩ io w (fun _ => none) = Except.ok ⟨0, 0, 0⟩ := by
  refine ⟨partitionChunks_nil w, partitionChunks_length _ w, ?_⟩
  have hc : runCountFiles ⟨true, FsForest.nil⟩ = Except.ok 0 := rfl
  have hl : runCollectFiles ⟨true, FsForest.nil⟩ = Except.ok [] := rfl
  rw [mainRun_no_fatal _ io w 0 [] hc hl]
  have h1 := aggregate_spec
    (((partitionChunks ([] : List (List String)) w).map (workerRun io)).flatten) ⟨0, 0⟩
  have h2 := countP_flatten_workers io (partitionChunks ([] : List (List String)) w)
  have h3 := partitionChunks_flatten ([] : List (List String)) w hw
  rw [h3] at h2
  rw [h2] at h1
  simp at h1
  rw [h1.1, h1.2]

/-- C3 witness (for the amended claim). -/
theorem claim3_witness :
    (0 : Nat) < 4 ∧
    mainRun ⟨true, FsForest.nil⟩ (fun _ => okIO) 4 (fun _ => none) = Except.ok ⟨0, 0, 0⟩ :=
  ⟨by decide, (claim3_empty_worklist 4 (fun _ => okIO) (by decide)).2.2⟩

/-- C7: for every static source tree (and the ignore predicate baked into
`shouldIgnore`), the counting pass returns exactly the length of the list
the collection pass gathers — `totalFiles` is the size of the work set
handed to the partitioner (and the two passes even fail identically). -/
theorem claim7_count_eq_collect (t : SourceTree) :
    runCountFiles t = Except.map List.length (runCollectFiles t) :=
  runCountFiles_eq t

/-- C4 counterexample: a run of one file whose single worker fatally errors
(exits with code 1 before processing anything).  `Promise.all` rejects, so
`main` throws before `multibar.stop()` and the summary `console.log`s, and
`main().catch` prints only the error: no summary is produced — contradicting
the claim that the final summary is always produced and printed. -/
theorem claim4_counterexample :
    mainRun ⟨true, FsForest.file "a.txt" FsForest.nil⟩ (fun _ => okIO) 1 (fun _ => some 0) =
      Except.error "Worker stopped with exit code 1" :=
  rfl

/-- C4 (amended): when any spawned worker fatally errors (exits non-zero),
the `Promise.all` join barrier rejects, `main` throws, and `main().catch`
exits after printing only an error — the run never reaches the summary
lines, so no final summary is produced for any input. -/
theorem claim4_fatal_no_summary (t : SourceTree) (io : List String → FileIO)
    (w : Nat) (fatal : Nat → Option Nat) (i k : Nat) (hi : i < w)
    (hk : fatal i = some k) (s : RunSummary) :
    mainRun t io w fatal ≠ Except.ok s := by
  intro h
  unfold mainRun at h
  cases hc : runCountFiles t with
  | error e => simp only [hc] at h; cases h
  | ok total =>
      cases hl : runCollectFiles t with
      | error e => simp only [hc, hl] at h; cases h
      | ok files =>
          simp only [hc, hl] at h
          set chunks := partitionChunks files w with hch
          have hlen : chunks.length = w := partitionChunks_length files w
          have hib : i < chunks.length := by rw [hlen]; exact hi
          have hienum : i < chunks.enum.length := by rw [List.enum_length]; exact hib
          have hmem : (i, chunks[i]) ∈ chunks.enum := by
            have hgi := List.getElem_enum chunks i hienum
            rw [← hgi]
            exact List.getElem_mem hienum
          have hmem1 : workerRunFatal io chunks[i] (fatal i) ∈
              chunks.enum.map (fun p => workerRunFatal io p.2 (fatal p.1)) :=
            List.mem_map.mpr ⟨(i, chunks[i]), hmem, rfl⟩
          have hsnd : (workerRunFatal io chunks[i] (fatal i)).snd = 1 := by
            rw [hk]
            rfl
          have h1mem : (1 : Nat) ∈ (chunks.enum.map
              (fun p => workerRunFatal io p.2 (fatal p.1))).map Prod.snd :=
            hsnd ▸ List.mem_map.mpr ⟨_, hmem1, rfl⟩
          cases haw : awaitWorkers ((chunks.enum.map
              (fun p => workerRunFatal io p.2 (fatal p.1))).map Prod.snd) with
          | error e => rw [haw] at h; cases h
          | ok u => exact awaitWorkers_ne_ok h1mem (by decide) u haw

/-- C4 witness (for the amended claim). -/
theorem claim4_witness :
    (0 : Nat) < 1 ∧
    mainRun ⟨true, FsForest.file "a.txt" FsForest.nil⟩ (fun _ => okIO) 1 (fun _ => some 0) ≠
      Except.ok ⟨1, 1, 0⟩ :=
  ⟨by decide,
    claim4_fatal_no_summary ⟨true, FsForest.file "a.txt" FsForest.nil⟩ (fun _ => okIO) 1
      (fun _ => some 0) 0 0 (by decide) rfl ⟨1, 1, 0⟩⟩

/-- C5 counterexample: a source tree whose only entry is an unreadable
(non-ignored) subdirectory.  The claim predicts the counting pass treats
it as zero files and succeeds (`Except.ok 0`); instead `readdir`'s
exception propagates out of `countFiles` — there is no try/catch — and
enumeration fails. -/
theorem claim5_counterexample :
    runCountFiles ⟨true, FsForest.dir "sub" false FsForest.nil FsForest.nil⟩ =
      Except.error "sub" ∧
    runCountFiles ⟨true, FsForest.dir "sub" false FsForest.nil FsForest.nil⟩ ≠
      Except.ok 0 :=
  ⟨rfl, fun h => nomatch h⟩

/-- C5 (amended): during enumeration, a non-ignored directory that fails
to open aborts the pass with the propagated exception (no warning, no
"treated as empty"), and an enumeration failure fails the whole run via
`main().catch` — with no summary.  Only an *ignored* unreadable directory
contributes zero files, because it is never opened; unreadable contents
are never counted as skipped in either case. -/
theorem claim5_unreadable_dir (rel : List String) (name : String)
    (children rest : FsForest) :
    (shouldIgnore (rel ++ [name]) true = false →
      countFiles rel (FsForest.dir name false children rest) =
        Except.error (joinPath (rel ++ [name])) ∧
      collectFiles rel (FsForest.dir name false children rest) =
        Except.error (joinPath (rel ++ [name]))) ∧
    (shouldIgnore (rel ++ [name]) true = true →
      countFiles rel (FsForest.dir name false children rest) = countFiles rel rest ∧
      collectFiles rel (FsForest.dir name false children rest) = collectFiles rel rest) ∧
    (∀ (t : SourceTree) (io : List String → FileIO) (w : Nat)
        (fatal : Nat → Option Nat) (e : String),
      runCountFiles t = Except.error e → mainRun t io w fatal = Except.error e) := by
  refine ⟨?_, ?_, fun t io w fatal e he => mainRun_count_error t io w fatal e he⟩
  · intro h
    rw [countFiles, collectFiles]
    simp [h]
  · intro h
    rw [countFiles, collectFiles]
    simp [h]

/-- C5 witness (for the amended claim). -/
theorem claim5_witness :
    shouldIgnore (([] : List String) ++ ["sub"]) true = false ∧
    countFiles [] (FsForest.dir "sub" false FsForest.nil FsForest.nil) =
      Except.error (joinPath (([] : List String) ++ ["sub"])) :=
  ⟨by decide, ((claim5_unreadable_dir [] "sub" FsForest.nil FsForest.nil).1 (by decide)).1⟩

/-- C6: a failing file yields exactly one `skipped` outcome with a
human-readable reason — whether the destination-directory creation, the
stat, or the chosen copy routine failed — and the surrounding batch is
unaffected: the events of the files before and after it are exactly what
they would be in isolation, so one file's failure never aborts its
siblings (nor, the chunks being independent, other chunks). -/
theorem claim6_per_file_isolation (io : List String → FileIO)
    (pre post : List (List String)) (f : List String) :
    copyBatch io (pre ++ f :: post) =
      copyBatch io pre ++ processFile io f :: copyBatch io post ∧
    (∀ m, (io f).mkdir = Except.error m →
      processFile io f = Msg.skipped f ("Error copying " ++ joinPath f ++ ": " ++ m)) ∧
    (∀ m, (io f).mkdir = Except.ok () → (io f).stat = Except.error m →
      processFile io f =
        Msg.skipped f ("Error copying " ++ joinPath f ++ ": " ++ ("Failed to copy file: " ++ m))) ∧
    (∀ m size, (io f).mkdir = Except.ok () → (io f).stat = Except.ok size →
      (match selectStrategy size with
        | CopyStrategy.streaming => (io f).copyStreaming
        | CopyStrategy.direct => (io f).copyDirect) = Except.error m →
      processFile io f =
        Msg.skipped f ("Error copying " ++ joinPath f ++ ": " ++ ("Failed to copy file: " ++ m))) ∧
    ((io f).mkdir = Except.ok () → copyFileModel (io f) = Except.ok () →
      processFile io f = Msg.copied f) := by
  refine ⟨by simp [copyBatch], ?_, ?_, ?_, ?_⟩
  · intro m hm
    unfold processFile
    rw [hm]
  · intro m hmk hst
    unfold processFile copyFileModel copyFileBody
    rw [hmk, hst]
  · intro m size hmk hst hcopy
    unfold processFile copyFileModel copyFileBody
    rw [hmk]
    simp only [hst]
    rw [hcopy]
  · intro hmk hok
    unfold processFile
    rw [hmk, hok]

/-- C6 witness. -/
theorem claim6_witness :
    processFile (fun _ => { okIO with mkdir := Except.error "EPERM" }) ["f.txt"] =
      Msg.skipped ["f.txt"] ("Error copying " ++ joinPath ["f.txt"] ++ ": " ++ "EPERM") :=
  (claim6_per_file_isolation (fun _ => { okIO with mkdir := Except.error "EPERM" })
    [] [] ["f.txt"]).2.1 "EPERM" rfl

/-- C8 counterexample: a *file* named `node_modules` inside a subdirectory
is collected into the work set.  Its relative path `sub/node_modules` has
the path component `node_modules`, which is a configured ignore-name —
the file rule is a string-prefix match on the whole relative path, and
`"sub/node_modules"` does not start with any ignore pattern. -/
theorem claim8_counterexample :
    runCollectFiles ⟨true,
        FsForest.dir "sub" true (FsForest.file "node_modules" FsForest.nil) FsForest.nil⟩ =
      Except.ok [["sub", "node_modules"]] ∧
    "node_modules" ∈ (["sub", "node_modules"] : List String) ∧
    "node_modules" ∈ ignoredPaths :=
  ⟨rfl, by decide, by decide⟩

/-- C8 (amended): no collected file lies strictly below a directory whose
name is a configured ignore-name — every proper ancestor component of a
work-set path is outside `ignoredPaths`, because an ignored directory is
never descended into — and no component at all (filename included) equals
`.git` or `System Volume Information`.  A *file itself named* an
ignore-name other than those two may still appear (see the
counterexample), since the file rule is only a prefix match on the
relative-path string. -/
theorem claim8_ignored_dir_exclusion (t : SourceTree) (l : List (List String))
    (p : List String) (h : runCollectFiles t = Except.ok l) (hp : p ∈ l) :
    (∀ c ∈ p.dropLast, c ∉ ignoredPaths) ∧
    (∀ c ∈ p, c ≠ ".git" ∧ c ≠ "System Volume Information") := by
  unfold runCollectFiles at h
  by_cases hr : t.rootReadable
  case neg => rw [if_neg hr] at h; cases h
  rw [if_pos hr] at h
  rcases collectFiles_sound t.entries [] l p h hp with ⟨suf, hps, hsne, hfile, hdirs⟩
  rw [List.nil_append] at hps
  subst hps
  refine ⟨?_, no_special_of_not_ignored hfile⟩
  intro c hcd
  rw [List.dropLast_eq_take] at hcd
  rcases List.mem_iff_getElem.mp hcd with ⟨j, hj, hcj⟩
  have hjlen : j < p.length - 1 := by
    simpa using hj
  have hdig : shouldIgnore (p.take (j + 1)) true = false := by
    have := hdirs (j + 1) (by omega) (by omega)
    simpa using this
  apply no_ignored_component_of_not_ignored_dir hdig c
  have hb : j < (p.take (j + 1)).length := by
    rw [List.length_take]
    omega
  have hgt : (p.take (j + 1))[j] = c := by
    rw [← hcj]
    rw [List.getElem_take, List.getElem_take]
  exact List.mem_iff_getElem.mpr ⟨j, hb, hgt⟩

/-- C8 witness (for the amended claim). -/
theorem claim8_witness :
    (∀ c ∈ (["docs", "readme.md"] : List String).dropLast, c ∉ ignoredPaths) ∧
    (∀ c ∈ (["docs", "readme.md"] : List String),
      c ≠ ".git" ∧ c ≠ "System Volume Information") :=
  claim8_ignored_dir_exclusion
    ⟨true, FsForest.dir "docs" true (FsForest.file "readme.md" FsForest.nil) FsForest.nil⟩
    [["docs", "readme.md"]] ["docs", "readme.md"] rfl (by decide)

/-- C9: the large-file threshold is exactly 10,485,760 bytes (10 MiB), the
streaming routine (`fs.copy`) is chosen precisely when the stat-reported
size is strictly greater than it, and with a successful stat the chosen
routine's result is the whole copy attempt's result. -/
theorem claim9_strategy_threshold (io : FileIO) (size : Nat) :
    LARGE_FILE_THRESHOLD = 10485760 ∧
    (selectStrategy size = CopyStrategy.streaming ↔ 10485760 < size) ∧
    (io.stat = Except.ok size →
      (10485760 < size → copyFileBody io = io.copyStreaming) ∧
      (size ≤ 10485760 → copyFileBody io = io.copyDirect)) := by
  refine ⟨rfl, ?_, ?_⟩
  · unfold selectStrategy LARGE_FILE_THRESHOLD
    by_cases hlt : 10485760 < size
    · simp [hlt]
    · simp [hlt]
  · intro hstat
    constructor
    · intro hlt
      unfold copyFileBody selectStrategy LARGE_FILE_THRESHOLD
      simp only [hstat]
      have hgt : size > 10 * 1024 * 1024 := by omega
      simp [hgt]
    · intro hle
      unfold copyFileBody selectStrategy LARGE_FILE_THRESHOLD
      simp only [hstat]
      have hng : ¬ size > 10 * 1024 * 1024 := by omega
      simp [hng]

/-- C9 witness. -/
theorem claim9_witness :
    ({ okIO with stat := Except.ok 20971520 } : FileIO).stat = Except.ok 20971520 ∧
    copyFileBody { okIO with stat := Except.ok 20971520 } =
      ({ okIO with stat := Except.ok 20971520 } : FileIO).copyStreaming :=
  ⟨rfl,
    ((claim9_strategy_threshold { okIO with stat := Except.ok 20971520 } 20971520).2.2
      rfl).1 (by decide)⟩

/-- C10 counterexample: the claim asserts that neither `.git` nor
`System Volume Information` is in the `ignoredPaths` list used for the
file-prefix rule; in fact `System Volume Information` is in that list
(only `.git` is absent). -/
theorem claim10_counterexample :
    "System Volume Information" ∈ ignoredPaths :=
  by decide

/-- C10 (amended): any relative path — file or directory — with `.git` or
`System Volume Information` as a component is ignored by `shouldIgnore`
(the two dedicated component checks run before the directory/file split),
and `.git` is absent from `ignoredPaths`; `System Volume Information`,
however, additionally appears in `ignoredPaths`, so for it the dedicated
check overlaps the list-based rules. -/
theorem claim10_special_names :
    (∀ (parts : List String) (b : Bool), ".git" ∈ parts → shouldIgnore parts b = true) ∧
    (∀ (parts : List String) (b : Bool), "System Volume Information" ∈ parts →
      shouldIgnore parts b = true) ∧
    ".git" ∉ ignoredPaths ∧ "System Volume Information" ∈ ignoredPaths :=
  ⟨fun _ b h => shouldIgnore_of_git h b,
   fun _ b h => shouldIgnore_of_svi h b,
   by decide, by decide⟩

/-- C10 witness (for the amended claim). -/
theorem claim10_witness :
    shouldIgnore ["a", ".git"] false = true :=
  claim10_special_names.1 ["a", ".git"] false (by decide)

end FastCopy
